import Mathlib

/-!
Shallow embedding of the node_manager reconciliation core:

* `applyCapacityFiltering` embeds `MonitoringService._apply_capacity_filtering`
  (src/src/monitoring_service.py): the hysteresis-based capacity admission
  filter with its throttle phase, recovery phase and min-active-nodes floor.
* `syncDnsRecords` embeds `DNSManager.sync_dns_records`
  (src/src/cloudflare_dns/dns_manager.py): the DNS diff/apply routine,
  modelled on the error-free path (every provider call succeeds).
* `checkCriticalState` and `checkNodeTransitions` embed
  `MonitoringService._check_critical_state` and
  `MonitoringService._check_node_transitions`.

Python sets are modelled as lists with membership semantics; addresses are an
arbitrary type with decidable equality.
-/

namespace NodeManager

variable {α : Type} [DecidableEq α]

/-- Python `set.add`: insert an element into a set modelled as a list. -/
def setInsert (a : α) (s : List α) : List α :=
  if a ∈ s then s else a :: s

/-- Python `set.discard`: remove an element from a set modelled as a list. -/
def setErase (a : α) (s : List α) : List α :=
  s.filter (fun x => decide (x ≠ a))

/-- Load-balancing configuration: `lb_enabled`, `lb_max_users`,
`lb_recover_users`, `lb_min_active_nodes` as read by the filter. -/
structure LBConfig where
  enabled : Bool
  maxUsers : Nat
  recoverUsers : Nat
  minActiveNodes : Nat

/-- The `active_count` computed inside phase 1 of
`_apply_capacity_filtering`: zone-healthy addresses that are currently in
the effective set and not throttled. -/
def activeCount (zoneHealthy effective overloaded : List α) : Nat :=
  (zoneHealthy.filter (fun z => decide (z ∈ effective ∧ z ∉ overloaded))).length

/-- One iteration of phase 1 (THROTTLE) of `_apply_capacity_filtering`.
State is `(effective, overloaded)`. -/
def throttleStep (cfg : LBConfig) (zoneHealthy : List α) (users : α → Nat)
    (st : List α × List α) (ip : α) : List α × List α :=
  if cfg.maxUsers < users ip ∧ ip ∉ st.2 then
    if activeCount zoneHealthy st.1 st.2 ≤ cfg.minActiveNodes then st
    else (setErase ip st.1, setInsert ip st.2)
  else st

/-- One iteration of phase 2 (RESTORE) of `_apply_capacity_filtering`. -/
def recoverStep (cfg : LBConfig) (configuredIps healthyAddresses : List α)
    (users : α → Nat) (st : List α × List α) (ip : α) : List α × List α :=
  if ip ∈ configuredIps then
    if ip ∈ healthyAddresses then
      if users ip < cfg.recoverUsers then (setInsert ip st.1, setErase ip st.2)
      else (setErase ip st.1, st.2)
    else st
  else st

/-- `zone_healthy_ips`: the zone's configured addresses that are healthy. -/
def zoneHealthyIps (configuredIps healthyAddresses : List α) : List α :=
  configuredIps.filter (fun ip => decide (ip ∈ healthyAddresses))

/-- Phase 1 of `_apply_capacity_filtering`: the THROTTLE loop, starting from
`effective = set(healthy_addresses)` and the current `_overloaded_ips`. -/
def throttlePhase (cfg : LBConfig) (configuredIps healthyAddresses : List α)
    (users : α → Nat) (overloaded : List α) : List α × List α :=
  (zoneHealthyIps configuredIps healthyAddresses).foldl
    (throttleStep cfg (zoneHealthyIps configuredIps healthyAddresses) users)
    (healthyAddresses, overloaded)

/-- `MonitoringService._apply_capacity_filtering`, returning the effective
set together with the updated `_overloaded_ips` state. -/
def applyCapacityFiltering (cfg : LBConfig) (configuredIps : List α)
    (healthyAddresses : List α) (users : α → Nat) (overloaded : List α) :
    List α × List α :=
  if cfg.enabled = false then (healthyAddresses, overloaded)
  else
    (throttlePhase cfg configuredIps healthyAddresses users overloaded).2.foldl
      (recoverStep cfg configuredIps healthyAddresses users)
      (throttlePhase cfg configuredIps healthyAddresses users overloaded)

/-- A sequence of filter calls for one zone across consecutive cycles, each
cycle supplying its healthy-address set and its per-address user counts; the
`_overloaded_ips` state threads from cycle to cycle.  Returns the effective
set of every cycle and the final overloaded state. -/
def runFilterCycles (cfg : LBConfig) (configuredIps : List α) :
    List (List α × (α → Nat)) → List α → List (List α) × List α
  | [], overloaded => ([], overloaded)
  | p :: rest, overloaded =>
    let st := applyCapacityFiltering cfg configuredIps p.1 p.2 overloaded
    let r := runFilterCycles cfg configuredIps rest st.2
    (st.1 :: r.1, r.2)

/-! ### DNS reconciler (`DNSManager.sync_dns_records`) -/

/-- A provider A record for `full_domain`: its provider id and its content
(the address). -/
structure DNSRecord (α : Type) where
  id : Nat
  content : α
deriving DecidableEq

/-- The record the Python dict `existing_by_ip` associates to a content:
the dict is built in list order, so a later record overwrites an earlier
one with the same content. -/
def lastRecordFor : List (DNSRecord α) → α → Option (DNSRecord α)
  | [], _ => none
  | r :: rest, ip =>
    match lastRecordFor rest ip with
    | some q => some q
    | none => if r.content = ip then some r else none

/-- Records created by the add loop, with fresh provider ids. -/
def mkRecords (freshId : Nat) : List α → List (DNSRecord α)
  | [] => []
  | ip :: rest => ⟨freshId, ip⟩ :: mkRecords (freshId + 1) rest

/-- Addresses the add loop creates records for: healthy configured addresses
with no existing record. -/
def toAddIps (configuredIps healthyIps : List α) (existing : List (DNSRecord α)) :
    List α :=
  ((configuredIps.filter (fun ip => decide (ip ∈ healthyIps))).dedup).filter
    (fun ip => decide (ip ∉ existing.map DNSRecord.content))

/-- Ids of records removed by the unhealthy loop: configured addresses not
in `healthy_ips` that have an existing record. -/
def removeIdsUnhealthy (configuredIps healthyIps : List α)
    (existing : List (DNSRecord α)) : List Nat :=
  ((configuredIps.dedup).filter (fun ip => decide (ip ∉ healthyIps))).filterMap
    (fun ip => (lastRecordFor existing ip).map DNSRecord.id)

/-- Ids of records removed by the stray loop: existing record contents that
are not configured. -/
def removeIdsStray (configuredIps : List α) (existing : List (DNSRecord α)) :
    List Nat :=
  (((existing.map DNSRecord.content).dedup).filter
    (fun ip => decide (ip ∉ configuredIps))).filterMap
    (fun ip => (lastRecordFor existing ip).map DNSRecord.id)

/-- Result of one `sync_dns_records` run on the error-free path. -/
structure SyncResult (α : Type) where
  records : List (DNSRecord α)
  addedCount : Nat
  removedCount : Nat
  nextId : Nat
deriving DecidableEq

/-- `DNSManager.sync_dns_records` on the error-free path (every provider
call succeeds): the provider record set after the run, together with the
number of create and delete calls issued.  `healthyIps` is the
`healthy_ips` argument, i.e. the effective address set of the caller. -/
def syncDnsRecords (configuredIps healthyIps : List α)
    (existing : List (DNSRecord α)) (freshId : Nat) : SyncResult α :=
  let toAdd := toAddIps configuredIps healthyIps existing
  let removeIds := removeIdsUnhealthy configuredIps healthyIps existing ++
    removeIdsStray configuredIps existing
  { records := existing.filter (fun r => decide (r.id ∉ removeIds)) ++
      mkRecords freshId toAdd
    addedCount := toAdd.length
    removedCount := removeIds.length
    nextId := freshId + toAdd.length }

/-! ### Orchestrator: critical-state and node-transition detection -/

/-- A node snapshot as produced by `NodeMonitor.check_all_nodes`, with the
fields the orchestrator reads.  `hasXrayVersion` is whether `xray_version`
is non-null. -/
structure NodeStatus (α : Type) where
  address : α
  isConnected : Bool
  isDisabled : Bool
  hasXrayVersion : Bool
  usersOnline : Nat
deriving DecidableEq

/-- `RemnawaveClient.is_node_healthy`: connected (including a present xray
version) and not disabled. -/
def NodeStatus.isHealthy (n : NodeStatus α) : Bool :=
  n.isConnected && n.hasXrayVersion && !n.isDisabled

/-- `all_down = 0 < len(configured_nodes) == len(unhealthy_nodes)` where the
caller computed `unhealthy_nodes` by filtering unhealthy configured nodes. -/
def allDownFlag (nodes : List (NodeStatus α)) : Bool :=
  decide (0 < nodes.length) &&
    decide (nodes.length = (nodes.filter (fun n => !n.isHealthy)).length)

/-- `MonitoringService._check_critical_state` on the path where the notifier
is present and critical notifications are enabled: first component is
whether the critical alert fires this cycle, second is the updated
`_previous_all_down` flag. -/
def checkCriticalState (nodes : List (NodeStatus α)) (prevAllDown : Bool) :
    Bool × Bool :=
  (allDownFlag nodes && !prevAllDown, allDownFlag nodes)

/-- The critical-alert emissions over a sequence of observed-node cycles,
threading `_previous_all_down`. -/
def runCriticalCycles : List (List (NodeStatus α)) → Bool → List Bool
  | [], _ => []
  | c :: rest, prev =>
    (checkCriticalState c prev).1 ::
      runCriticalCycles rest (checkCriticalState c prev).2

/-- A `NodeStateChange` notification, reduced to the fields the claims
mention. -/
structure NodeStateChange (α : Type) where
  address : α
  previousHealthy : Bool
  currentHealthy : Bool
deriving DecidableEq

/-- One iteration of the loop in `MonitoringService._check_node_transitions`:
state is the `_previous_node_states` map plus the notifications emitted so
far, in order. -/
def transitionStep (st : (α → Option Bool) × List (NodeStateChange α))
    (n : NodeStatus α) : (α → Option Bool) × List (NodeStateChange α) :=
  match st.1 n.address with
  | none => (fun b => if b = n.address then some n.isHealthy else st.1 b, st.2)
  | some p =>
    if p = n.isHealthy then
      (fun b => if b = n.address then some n.isHealthy else st.1 b, st.2)
    else
      (fun b => if b = n.address then some n.isHealthy else st.1 b,
        st.2 ++ [⟨n.address, p, n.isHealthy⟩])

/-- `MonitoringService._check_node_transitions`: when the notifier is absent
or node-change notifications are disabled the method returns immediately,
leaving `_previous_node_states` untouched and emitting nothing. -/
def checkNodeTransitions (enabled : Bool) (nodes : List (NodeStatus α))
    (prev : α → Option Bool) : (α → Option Bool) × List (NodeStateChange α) :=
  if enabled then nodes.foldl transitionStep (prev, [])
  else (prev, [])

/-! ### Basic lemmas about the two phases -/

theorem mem_setInsert (b a : α) (s : List α) :
    b ∈ setInsert a s ↔ b = a ∨ b ∈ s := by
  unfold setInsert
  split
  · constructor
    · exact fun h => Or.inr h
    · rintro (rfl | h) <;> assumption
  · simp [List.mem_cons]

theorem mem_setErase (b a : α) (s : List α) :
    b ∈ setErase a s ↔ b ≠ a ∧ b ∈ s := by
  simp [setErase, List.mem_filter, and_comm]

theorem nodup_setInsert (a : α) (s : List α) (h : s.Nodup) :
    (setInsert a s).Nodup := by
  unfold setInsert
  split
  · exact h
  · exact List.Nodup.cons (by assumption) h

theorem throttleStep_over_mono (cfg : LBConfig) (zoneHealthy : List α)
    (users : α → Nat) (st : List α × List α) (ip b : α) (h : b ∈ st.2) :
    b ∈ (throttleStep cfg zoneHealthy users st ip).2 := by
  unfold throttleStep
  split_ifs <;> simp_all [mem_setInsert]

theorem throttleFold_over_mono (cfg : LBConfig) (zoneHealthy : List α)
    (users : α → Nat) (l : List α) (b : α) :
    ∀ st : List α × List α, b ∈ st.2 →
      b ∈ (l.foldl (throttleStep cfg zoneHealthy users) st).2 := by
  induction l with
  | nil => intro st h; exact h
  | cons ip rest ih =>
    intro st h
    exact ih _ (throttleStep_over_mono cfg zoneHealthy users st ip b h)

theorem throttleStep_preserve_active (cfg : LBConfig) (zoneHealthy : List α)
    (users : α → Nat) (st : List α × List α) (ip b : α)
    (hu : users b ≤ cfg.maxUsers) (he : b ∈ st.1) (ho : b ∉ st.2) :
    b ∈ (throttleStep cfg zoneHealthy users st ip).1 ∧
      b ∉ (throttleStep cfg zoneHealthy users st ip).2 := by
  unfold throttleStep
  split_ifs with h1 h2
  · exact ⟨he, ho⟩
  · have hne : b ≠ ip := by
      intro hbi
      subst hbi
      exact absurd h1.1 (not_lt.mpr hu)
    simp only [mem_setErase, mem_setInsert]
    exact ⟨⟨hne, he⟩, by tauto⟩
  · exact ⟨he, ho⟩

theorem throttleFold_preserve_active (cfg : LBConfig) (zoneHealthy : List α)
    (users : α → Nat) (l : List α) (b : α) (hu : users b ≤ cfg.maxUsers) :
    ∀ st : List α × List α, b ∈ st.1 → b ∉ st.2 →
      b ∈ (l.foldl (throttleStep cfg zoneHealthy users) st).1 ∧
        b ∉ (l.foldl (throttleStep cfg zoneHealthy users) st).2 := by
  induction l with
  | nil => intro st he ho; exact ⟨he, ho⟩
  | cons ip rest ih =>
    intro st he ho
    have h := throttleStep_preserve_active cfg zoneHealthy users st ip b hu he ho
    exact ih _ h.1 h.2

theorem recoverStep_mem_of_ne (cfg : LBConfig) (configuredIps healthyAddresses : List α)
    (users : α → Nat) (st : List α × List α) (ip b : α) (h : b ≠ ip) :
    (b ∈ (recoverStep cfg configuredIps healthyAddresses users st ip).1 ↔ b ∈ st.1) ∧
      (b ∈ (recoverStep cfg configuredIps healthyAddresses users st ip).2 ↔ b ∈ st.2) := by
  unfold recoverStep
  split_ifs <;> simp [mem_setInsert, mem_setErase, h]

/-- Membership characterisation of phase 2 (the RESTORE loop): whether an
address ends up in the effective set / in the overloaded set is decided by
its own snapshot membership, zone membership, health and user count. -/
theorem recoverFold_mem (cfg : LBConfig) (configuredIps healthyAddresses : List α)
    (users : α → Nat) (b : α) (snap : List α) :
    ∀ st : List α × List α,
      (b ∈ (snap.foldl (recoverStep cfg configuredIps healthyAddresses users) st).1 ↔
        (if b ∈ snap ∧ b ∈ configuredIps ∧ b ∈ healthyAddresses
         then users b < cfg.recoverUsers else b ∈ st.1)) ∧
      (b ∈ (snap.foldl (recoverStep cfg configuredIps healthyAddresses users) st).2 ↔
        (if b ∈ snap ∧ b ∈ configuredIps ∧ b ∈ healthyAddresses ∧
            users b < cfg.recoverUsers
         then False else b ∈ st.2)) := by
  induction snap with
  | nil => intro st; simp
  | cons ip rest ih =>
    intro st
    simp only [List.foldl_cons]
    rcases ih (recoverStep cfg configuredIps healthyAddresses users st ip) with ⟨h2e, h2o⟩
    by_cases hbi : b = ip
    · subst hbi
      by_cases hbc : b ∈ configuredIps <;> by_cases hbh : b ∈ healthyAddresses <;>
        by_cases hbu : users b < cfg.recoverUsers <;>
        by_cases hbr : b ∈ rest <;>
        simp only [recoverStep, hbc, hbh, hbu, if_true, if_false, ite_true,
          ite_false] at h2e h2o ⊢ <;>
        constructor <;>
        simp_all [mem_setInsert, mem_setErase, List.mem_cons]
    · have hstep := recoverStep_mem_of_ne cfg configuredIps healthyAddresses users st ip b hbi
      rw [h2e, h2o, hstep.1, hstep.2]
      constructor <;> simp [List.mem_cons, hbi]

theorem applyCapacityFiltering_of_enabled (cfg : LBConfig)
    (configuredIps healthyAddresses : List α) (users : α → Nat) (overloaded : List α)
    (hen : cfg.enabled = true) :
    applyCapacityFiltering cfg configuredIps healthyAddresses users overloaded =
      (throttlePhase cfg configuredIps healthyAddresses users overloaded).2.foldl
        (recoverStep cfg configuredIps healthyAddresses users)
        (throttlePhase cfg configuredIps healthyAddresses users overloaded) := by
  unfold applyCapacityFiltering
  rw [if_neg (by simp [hen])]

/-- Core single-cycle fact: a throttled, configured, healthy address whose
user count has not dropped strictly below `recover_users` stays out of the
effective set and stays throttled. -/
theorem band_single (cfg : LBConfig) (configuredIps healthyAddresses over0 : List α)
    (users : α → Nat) (b : α)
    (hen : cfg.enabled = true) (hcb : b ∈ configuredIps) (hhb : b ∈ healthyAddresses)
    (hob : b ∈ over0) (hu : cfg.recoverUsers ≤ users b) :
    b ∉ (applyCapacityFiltering cfg configuredIps healthyAddresses users over0).1 ∧
      b ∈ (applyCapacityFiltering cfg configuredIps healthyAddresses users over0).2 := by
  rw [applyCapacityFiltering_of_enabled cfg configuredIps healthyAddresses users over0 hen]
  have hover1 : b ∈ (throttlePhase cfg configuredIps healthyAddresses users over0).2 :=
    throttleFold_over_mono cfg _ users _ b (healthyAddresses, over0) hob
  have hchar := recoverFold_mem cfg configuredIps healthyAddresses users b
    (throttlePhase cfg configuredIps healthyAddresses users over0).2
    (throttlePhase cfg configuredIps healthyAddresses users over0)
  constructor
  · rw [hchar.1, if_pos ⟨hover1, hcb, hhb⟩]
    exact Nat.not_lt.mpr hu
  · rw [hchar.2, if_neg (by rintro ⟨-, -, -, hlt⟩; exact absurd hlt (Nat.not_lt.mpr hu))]
    exact hover1

/-- C3: Hysteresis band.  An address that is throttled at the start, is in
the zone's configured list, and on every cycle is healthy with a user count
in the band `recover_users ≤ u ≤ max_users`, is absent from the filter's
output on every one of those cycles and is still in the throttled set at the
end — for any number of consecutive cycles. -/
theorem capacity_hysteresis_band (cfg : LBConfig) (configuredIps : List α) (b : α)
    (cycles : List (List α × (α → Nat)))
    (hen : cfg.enabled = true) (hcb : b ∈ configuredIps) :
    ∀ over0 : List α, b ∈ over0 →
      (∀ p ∈ cycles, b ∈ p.1 ∧ cfg.recoverUsers ≤ p.2 b ∧ p.2 b ≤ cfg.maxUsers) →
      (∀ out ∈ (runFilterCycles cfg configuredIps cycles over0).1, b ∉ out) ∧
        b ∈ (runFilterCycles cfg configuredIps cycles over0).2 := by
  induction cycles with
  | nil =>
    intro over0 hob _
    refine ⟨?_, hob⟩
    intro out hout
    simp [runFilterCycles] at hout
  | cons p rest ih =>
    intro over0 hob hcyc
    obtain ⟨hh, hr, -⟩ := hcyc p (List.mem_cons_self p rest)
    have hsingle := band_single cfg configuredIps p.1 over0 p.2 b hen hcb hh hob hr
    have hrest := ih (applyCapacityFiltering cfg configuredIps p.1 p.2 over0).2
      hsingle.2 (fun q hq => hcyc q (List.mem_cons_of_mem p hq))
    refine ⟨?_, hrest.2⟩
    intro out hout
    rcases List.mem_cons.mp hout with rfl | hout2
    · exact hsingle.1
    · exact hrest.1 out hout2

/-- Witness for C3 at concrete inputs. -/
theorem capacity_hysteresis_band_witness :
    (1 : Nat) ∈ [1, 2] ∧ (1 : Nat) ∈ [1] ∧
      (∀ p ∈ [(([1, 2] : List Nat), fun _ : Nat => 7), ([1, 2], fun _ => 8)],
        (1 : Nat) ∈ p.1 ∧ (5 : Nat) ≤ p.2 1 ∧ p.2 1 ≤ 10) ∧
      ((∀ out ∈ (runFilterCycles ⟨true, 10, 5, 0⟩ [1, 2]
          [(([1, 2] : List Nat), fun _ : Nat => 7), ([1, 2], fun _ => 8)] [1]).1,
          (1 : Nat) ∉ out) ∧
        (1 : Nat) ∈ (runFilterCycles ⟨true, 10, 5, 0⟩ [1, 2]
          [(([1, 2] : List Nat), fun _ : Nat => 7), ([1, 2], fun _ => 8)] [1]).2) :=
  ⟨by decide, by decide, by decide,
    capacity_hysteresis_band ⟨true, 10, 5, 0⟩ [1, 2] 1
      [(([1, 2] : List Nat), fun _ : Nat => 7), ([1, 2], fun _ => 8)] rfl (by decide) [1]
      (by decide) (by decide)⟩

/-- C4: Boundary exactness.  A not-yet-throttled healthy zone address with
`users = max_users` exactly stays in the output and out of the throttled
set; a throttled healthy zone address with `users = recover_users` exactly
stays out of the output and in the throttled set. -/
theorem capacity_boundary_exact (cfg : LBConfig)
    (configuredIps healthyAddresses over0 : List α) (users : α → Nat) (b : α)
    (hen : cfg.enabled = true) (hcb : b ∈ configuredIps) (hhb : b ∈ healthyAddresses) :
    (b ∉ over0 → users b = cfg.maxUsers →
      b ∈ (applyCapacityFiltering cfg configuredIps healthyAddresses users over0).1 ∧
        b ∉ (applyCapacityFiltering cfg configuredIps healthyAddresses users over0).2) ∧
    (b ∈ over0 → users b = cfg.recoverUsers →
      b ∉ (applyCapacityFiltering cfg configuredIps healthyAddresses users over0).1 ∧
        b ∈ (applyCapacityFiltering cfg configuredIps healthyAddresses users over0).2) := by
  constructor
  · intro hob hmax
    rw [applyCapacityFiltering_of_enabled cfg configuredIps healthyAddresses users over0 hen]
    have hact := throttleFold_preserve_active cfg
      (zoneHealthyIps configuredIps healthyAddresses) users
      (zoneHealthyIps configuredIps healthyAddresses) b (le_of_eq hmax)
      (healthyAddresses, over0) hhb hob
    have hchar := recoverFold_mem cfg configuredIps healthyAddresses users b
      (throttlePhase cfg configuredIps healthyAddresses users over0).2
      (throttlePhase cfg configuredIps healthyAddresses users over0)
    have hnot : ¬ (b ∈ (throttlePhase cfg configuredIps healthyAddresses users over0).2 ∧
        b ∈ configuredIps ∧ b ∈ healthyAddresses) := by
      rintro ⟨hsnap, -, -⟩
      exact hact.2 hsnap
    constructor
    · rw [hchar.1, if_neg hnot]
      exact hact.1
    · rw [hchar.2, if_neg (by rintro ⟨hsnap, hc, hh, -⟩; exact hnot ⟨hsnap, hc, hh⟩)]
      exact hact.2
  · intro hob hrec
    exact band_single cfg configuredIps healthyAddresses over0 users b hen hcb hhb hob
      (le_of_eq hrec.symm)

/-- Witness for C4 at concrete inputs. -/
theorem capacity_boundary_exact_witness :
    ((1 : Nat) ∉ ([2] : List Nat) → (fun _ : Nat => (10 : Nat)) 1 = (10 : Nat) →
      (1 : Nat) ∈ (applyCapacityFiltering ⟨true, 10, 5, 0⟩ [1, 2] [1, 2]
        (fun _ => 10) [2]).1 ∧
      (1 : Nat) ∉ (applyCapacityFiltering ⟨true, 10, 5, 0⟩ [1, 2] [1, 2]
        (fun _ => 10) [2]).2) ∧
    ((1 : Nat) ∈ ([2] : List Nat) → (fun _ : Nat => (10 : Nat)) 1 = (5 : Nat) →
      (1 : Nat) ∉ (applyCapacityFiltering ⟨true, 10, 5, 0⟩ [1, 2] [1, 2]
        (fun _ => 10) [2]).1 ∧
      (1 : Nat) ∈ (applyCapacityFiltering ⟨true, 10, 5, 0⟩ [1, 2] [1, 2]
        (fun _ => 10) [2]).2) :=
  capacity_boundary_exact ⟨true, 10, 5, 0⟩ [1, 2] [1, 2] [2] (fun _ => 10) 1
    rfl (by decide) (by decide)

theorem throttleStep_id_of_floor (cfg : LBConfig) (zoneHealthy : List α)
    (users : α → Nat) (st : List α × List α) (ip : α)
    (h : activeCount zoneHealthy st.1 st.2 ≤ cfg.minActiveNodes) :
    throttleStep cfg zoneHealthy users st ip = st := by
  unfold throttleStep
  by_cases h1 : cfg.maxUsers < users ip ∧ ip ∉ st.2
  · rw [if_pos h1, if_pos h]
  · rw [if_neg h1]

theorem throttleFold_id_of_floor (cfg : LBConfig) (zoneHealthy : List α)
    (users : α → Nat) (st : List α × List α)
    (h : activeCount zoneHealthy st.1 st.2 ≤ cfg.minActiveNodes) :
    ∀ l : List α, l.foldl (throttleStep cfg zoneHealthy users) st = st := by
  intro l
  induction l with
  | nil => rfl
  | cons ip rest ih =>
    rw [List.foldl_cons, throttleStep_id_of_floor cfg zoneHealthy users st ip h, ih]

/-- C5: No new throttling under the floor.  If at most `min_active_nodes` of
the zone's configured addresses are healthy, no zone address is newly added
to the overloaded set, whatever the user loads are. -/
theorem capacity_floor_no_new_throttle (cfg : LBConfig)
    (configuredIps healthyAddresses over0 : List α) (users : α → Nat)
    (hfloor : (configuredIps.filter
      (fun ip => decide (ip ∈ healthyAddresses))).length ≤ cfg.minActiveNodes) :
    ∀ b ∈ configuredIps,
      b ∈ (applyCapacityFiltering cfg configuredIps healthyAddresses users over0).2 →
        b ∈ over0 := by
  intro b _hb hmem
  unfold applyCapacityFiltering at hmem
  split_ifs at hmem
  · exact hmem
  · have hact : activeCount (zoneHealthyIps configuredIps healthyAddresses)
        healthyAddresses over0 ≤ cfg.minActiveNodes :=
      le_trans (List.length_filter_le _ _) hfloor
    have hid := throttleFold_id_of_floor cfg
      (zoneHealthyIps configuredIps healthyAddresses) users (healthyAddresses, over0)
      hact (zoneHealthyIps configuredIps healthyAddresses)
    rw [show throttlePhase cfg configuredIps healthyAddresses users over0 =
        (healthyAddresses, over0) from hid] at hmem
    have hchar := recoverFold_mem cfg configuredIps healthyAddresses users b over0
      (healthyAddresses, over0)
    rw [hchar.2] at hmem
    split_ifs at hmem
    exact hmem

/-- Witness for C5 at concrete inputs. -/
theorem capacity_floor_no_new_throttle_witness :
    ((([1, 2] : List Nat).filter (fun ip => decide (ip ∈ ([1] : List Nat)))).length ≤ 2) ∧
      ((1 : Nat) ∈ ([1, 2] : List Nat)) ∧
      ((1 : Nat) ∈ (applyCapacityFiltering ⟨true, 10, 5, 2⟩ [1, 2] [1]
        (fun _ => 100) []).2 → (1 : Nat) ∈ ([] : List Nat)) :=
  ⟨by decide, by decide,
    capacity_floor_no_new_throttle ⟨true, 10, 5, 2⟩ [1, 2] [1] [] (fun _ => 100)
      (by decide) 1 (by decide)⟩

/-- Coupling of phase 1 across two runs that agree on everything concerning
the zone's configured addresses. -/
theorem throttleFold_coupled (cfg : LBConfig) (configuredIps : List α)
    (users1 users2 : α → Nat) (zh : List α)
    (hzh : ∀ z ∈ zh, z ∈ configuredIps)
    (hu : ∀ a ∈ configuredIps, users1 a = users2 a) :
    ∀ l : List α, (∀ z ∈ l, z ∈ configuredIps) →
      ∀ st1 st2 : List α × List α,
        (∀ a ∈ configuredIps, ((a ∈ st1.1) ↔ (a ∈ st2.1)) ∧ ((a ∈ st1.2) ↔ (a ∈ st2.2))) →
        ∀ a ∈ configuredIps,
          ((a ∈ (l.foldl (throttleStep cfg zh users1) st1).1 ↔
              a ∈ (l.foldl (throttleStep cfg zh users2) st2).1) ∧
            (a ∈ (l.foldl (throttleStep cfg zh users1) st1).2 ↔
              a ∈ (l.foldl (throttleStep cfg zh users2) st2).2)) := by
  intro l
  induction l with
  | nil =>
    intro _ st1 st2 hR a ha
    exact hR a ha
  | cons ip rest ih =>
    intro hl st1 st2 hR a ha
    have hip : ip ∈ configuredIps := hl ip (List.mem_cons_self ip rest)
    have hipu : users1 ip = users2 ip := hu ip hip
    have hipo : ip ∈ st1.2 ↔ ip ∈ st2.2 := (hR ip hip).2
    have hcnt : activeCount zh st1.1 st1.2 = activeCount zh st2.1 st2.2 := by
      unfold activeCount
      have hf : zh.filter (fun z => decide (z ∈ st1.1 ∧ z ∉ st1.2)) =
          zh.filter (fun z => decide (z ∈ st2.1 ∧ z ∉ st2.2)) := by
        apply List.filter_congr
        intro z hz
        have hzc := hR z (hzh z hz)
        rw [decide_eq_decide]
        exact and_congr hzc.1 (not_congr hzc.2)
      rw [hf]
    have hstep : ∀ b ∈ configuredIps,
        ((b ∈ (throttleStep cfg zh users1 st1 ip).1 ↔
            b ∈ (throttleStep cfg zh users2 st2 ip).1) ∧
          (b ∈ (throttleStep cfg zh users1 st1 ip).2 ↔
            b ∈ (throttleStep cfg zh users2 st2 ip).2)) := by
      intro b hb
      unfold throttleStep
      by_cases hc1 : cfg.maxUsers < users1 ip ∧ ip ∉ st1.2
      · have hc2 : cfg.maxUsers < users2 ip ∧ ip ∉ st2.2 :=
          ⟨hipu ▸ hc1.1, fun h => hc1.2 (hipo.mpr h)⟩
        rw [if_pos hc1, if_pos hc2, hcnt]
        by_cases hact : activeCount zh st2.1 st2.2 ≤ cfg.minActiveNodes
        · rw [if_pos hact, if_pos hact]
          exact hR b hb
        · rw [if_neg hact, if_neg hact]
          constructor
          · simp only [mem_setErase]
            exact and_congr Iff.rfl (hR b hb).1
          · simp only [mem_setInsert]
            exact or_congr Iff.rfl (hR b hb).2
      · have hc2 : ¬(cfg.maxUsers < users2 ip ∧ ip ∉ st2.2) := by
          intro h
          exact hc1 ⟨hipu ▸ h.1, fun hh => h.2 (hipo.mp hh)⟩
        rw [if_neg hc1, if_neg hc2]
        exact hR b hb
    exact ih (fun z hz => hl z (List.mem_cons_of_mem ip hz)) _ _ hstep a ha

/-- C9: Zone isolation.  Two filter runs for the same zone whose inputs agree
on the zone's configured addresses (health, user load, throttled membership)
produce the same output membership for every zone-configured address, no
matter how the inputs differ on addresses outside the zone. -/
theorem capacity_zone_isolation (cfg : LBConfig) (configuredIps : List α)
    (healthy1 healthy2 over1 over2 : List α) (users1 users2 : α → Nat) (b : α)
    (hagree : ∀ a ∈ configuredIps,
      ((a ∈ healthy1) ↔ (a ∈ healthy2)) ∧ users1 a = users2 a ∧
        ((a ∈ over1) ↔ (a ∈ over2)))
    (hb : b ∈ configuredIps) :
    (b ∈ (applyCapacityFiltering cfg configuredIps healthy1 users1 over1).1 ↔
      b ∈ (applyCapacityFiltering cfg configuredIps healthy2 users2 over2).1) := by
  by_cases hen : cfg.enabled = false
  · unfold applyCapacityFiltering
    rw [if_pos hen, if_pos hen]
    exact (hagree b hb).1
  · have hen2 : cfg.enabled = true := by
      revert hen
      cases cfg.enabled <;> simp
    rw [applyCapacityFiltering_of_enabled cfg configuredIps healthy1 users1 over1 hen2,
      applyCapacityFiltering_of_enabled cfg configuredIps healthy2 users2 over2 hen2]
    have hzh : zoneHealthyIps configuredIps healthy1 = zoneHealthyIps configuredIps healthy2 := by
      unfold zoneHealthyIps
      apply List.filter_congr
      intro z hz
      rw [decide_eq_decide]
      exact (hagree z hz).1
    have hsub : ∀ z ∈ zoneHealthyIps configuredIps healthy1, z ∈ configuredIps :=
      fun z hz => List.mem_of_mem_filter hz
    have hT2 : throttlePhase cfg configuredIps healthy2 users2 over2 =
        (zoneHealthyIps configuredIps healthy1).foldl
          (throttleStep cfg (zoneHealthyIps configuredIps healthy1) users2)
          (healthy2, over2) := by
      unfold throttlePhase
      rw [hzh]
    have hcouple := throttleFold_coupled cfg configuredIps users1 users2
      (zoneHealthyIps configuredIps healthy1) hsub (fun a ha => (hagree a ha).2.1)
      (zoneHealthyIps configuredIps healthy1) hsub
      (healthy1, over1) (healthy2, over2)
      (fun a ha => ⟨(hagree a ha).1, (hagree a ha).2.2⟩)
    have hT : ∀ a ∈ configuredIps,
        ((a ∈ (throttlePhase cfg configuredIps healthy1 users1 over1).1 ↔
            a ∈ (throttlePhase cfg configuredIps healthy2 users2 over2).1) ∧
          (a ∈ (throttlePhase cfg configuredIps healthy1 users1 over1).2 ↔
            a ∈ (throttlePhase cfg configuredIps healthy2 users2 over2).2)) := by
      intro a ha
      rw [hT2]
      exact hcouple a ha
    have hchar1 := recoverFold_mem cfg configuredIps healthy1 users1 b
      (throttlePhase cfg configuredIps healthy1 users1 over1).2
      (throttlePhase cfg configuredIps healthy1 users1 over1)
    have hchar2 := recoverFold_mem cfg configuredIps healthy2 users2 b
      (throttlePhase cfg configuredIps healthy2 users2 over2).2
      (throttlePhase cfg configuredIps healthy2 users2 over2)
    rw [hchar1.1, hchar2.1]
    have hbT := hT b hb
    have hbu := (hagree b hb).2.1
    have hbh := (hagree b hb).1
    by_cases hcond : b ∈ (throttlePhase cfg configuredIps healthy1 users1 over1).2 ∧
        b ∈ configuredIps ∧ b ∈ healthy1
    · have hcond2 : b ∈ (throttlePhase cfg configuredIps healthy2 users2 over2).2 ∧
          b ∈ configuredIps ∧ b ∈ healthy2 :=
        ⟨hbT.2.mp hcond.1, hb, hbh.mp hcond.2.2⟩
      rw [if_pos hcond, if_pos hcond2, hbu]
    · have hcond2 : ¬(b ∈ (throttlePhase cfg configuredIps healthy2 users2 over2).2 ∧
          b ∈ configuredIps ∧ b ∈ healthy2) := by
        rintro ⟨h1, -, h3⟩
        exact hcond ⟨hbT.2.mpr h1, hb, hbh.mpr h3⟩
      rw [if_neg hcond, if_neg hcond2]
      exact hbT.1

/-- Witness for C9 at concrete inputs. -/
theorem capacity_zone_isolation_witness :
    (∀ a ∈ ([1] : List Nat),
      ((a ∈ ([1, 2] : List Nat)) ↔ (a ∈ ([1] : List Nat))) ∧
        (fun _ : Nat => (0 : Nat)) a = (fun x : Nat => if x = 1 then 0 else 50) a ∧
        ((a ∈ ([5] : List Nat)) ↔ (a ∈ ([] : List Nat)))) ∧
    ((1 : Nat) ∈ (applyCapacityFiltering ⟨true, 10, 5, 0⟩ [1] [1, 2]
        (fun _ => 0) [5]).1 ↔
      (1 : Nat) ∈ (applyCapacityFiltering ⟨true, 10, 5, 0⟩ [1] [1]
        (fun x => if x = 1 then 0 else 50) []).1) :=
  ⟨by decide,
    capacity_zone_isolation ⟨true, 10, 5, 0⟩ [1] [1, 2] [1] [5] []
      (fun _ => 0) (fun x => if x = 1 then 0 else 50) 1 (by decide) (by decide)⟩

/-! ### Counting lemmas for the min-active floor -/

theorem length_filter_le_filter_add_count (p q : α → Bool) (ip : α) :
    ∀ l : List α, (∀ z ∈ l, z ≠ ip → p z = q z) →
      (l.filter p).length ≤ (l.filter q).length + l.count ip := by
  intro l
  induction l with
  | nil => intro _; simp
  | cons x rest ih =>
    intro h
    have hrest := ih (fun z hz => h z (List.mem_cons_of_mem x hz))
    by_cases hx : x = ip
    · subst hx
      simp only [List.filter_cons, List.count_cons]
      by_cases hp : p x = true <;> by_cases hq : q x = true <;>
        simp [hp, hq] <;> omega
    · have hpq : p x = q x := h x (List.mem_cons_self x rest) hx
      simp only [List.filter_cons, List.count_cons, hpq]
      have hcx : ¬(x == ip) = true := by simp [hx]
      by_cases hq : q x = true <;> simp [hq, hcx] <;> omega

omit [DecidableEq α] in
theorem length_filter_mono (p q : α → Bool)
    (h : ∀ z, p z = true → q z = true) :
    ∀ l : List α, (l.filter p).length ≤ (l.filter q).length := by
  intro l
  induction l with
  | nil => simp
  | cons x rest ih =>
    simp only [List.filter_cons]
    by_cases hp : p x = true
    · rw [if_pos hp, if_pos (h x hp)]
      simpa using ih
    · rw [if_neg hp]
      by_cases hq : q x = true
      · rw [if_pos hq]
        exact le_trans ih (by simp)
      · rw [if_neg hq]
        exact ih

theorem throttleStep_active_floor (cfg : LBConfig) (zh : List α) (users : α → Nat)
    (hnd : zh.Nodup) (st : List α × List α) (ip : α)
    (h : cfg.minActiveNodes ≤ activeCount zh st.1 st.2) :
    cfg.minActiveNodes ≤
      activeCount zh (throttleStep cfg zh users st ip).1
        (throttleStep cfg zh users st ip).2 := by
  unfold throttleStep
  split_ifs with h1 h2
  · exact h
  · have hcnt := length_filter_le_filter_add_count
      (fun z => decide (z ∈ st.1 ∧ z ∉ st.2))
      (fun z => decide (z ∈ setErase ip st.1 ∧ z ∉ setInsert ip st.2)) ip zh
      (by
        intro z _ hz
        rw [decide_eq_decide]
        simp only [mem_setErase, mem_setInsert]
        constructor
        · rintro ⟨h1, h2⟩
          exact ⟨⟨hz, h1⟩, by rintro (rfl | hm) <;> [exact hz rfl; exact h2 hm]⟩
        · rintro ⟨⟨-, h1⟩, h2⟩
          exact ⟨h1, fun hm => h2 (Or.inr hm)⟩)
    have hone : zh.count ip ≤ 1 := List.nodup_iff_count_le_one.mp hnd ip
    have hlt : cfg.minActiveNodes < activeCount zh st.1 st.2 := Nat.lt_of_not_le h2
    unfold activeCount at hlt ⊢
    dsimp only
    omega
  · exact h

theorem throttleFold_active_floor (cfg : LBConfig) (zh : List α) (users : α → Nat)
    (hnd : zh.Nodup) :
    ∀ (l : List α) (st : List α × List α),
      cfg.minActiveNodes ≤ activeCount zh st.1 st.2 →
      cfg.minActiveNodes ≤
        activeCount zh (l.foldl (throttleStep cfg zh users) st).1
          (l.foldl (throttleStep cfg zh users) st).2 := by
  intro l
  induction l with
  | nil => intro st h; exact h
  | cons ip rest ih =>
    intro st h
    exact ih _ (throttleStep_active_floor cfg zh users hnd st ip h)

theorem throttleStep_over_nodup (cfg : LBConfig) (zh : List α) (users : α → Nat)
    (st : List α × List α) (ip : α) (h : st.2.Nodup) :
    (throttleStep cfg zh users st ip).2.Nodup := by
  unfold throttleStep
  split_ifs
  · exact h
  · exact nodup_setInsert ip st.2 h
  · exact h

theorem throttleFold_over_nodup (cfg : LBConfig) (zh : List α) (users : α → Nat) :
    ∀ (l : List α) (st : List α × List α), st.2.Nodup →
      (l.foldl (throttleStep cfg zh users) st).2.Nodup := by
  intro l
  induction l with
  | nil => intro st h; exact h
  | cons ip rest ih =>
    intro st h
    exact ih _ (throttleStep_over_nodup cfg zh users st ip h)

theorem recoverFold_active_floor (cfg : LBConfig) (configuredIps healthyAddresses : List α)
    (users : α → Nat) (zh : List α) :
    ∀ (snap : List α) (st : List α × List α), snap.Nodup → (∀ z ∈ snap, z ∈ st.2) →
      activeCount zh st.1 st.2 ≤
        activeCount zh
          (snap.foldl (recoverStep cfg configuredIps healthyAddresses users) st).1
          (snap.foldl (recoverStep cfg configuredIps healthyAddresses users) st).2 := by
  intro snap
  induction snap with
  | nil => intro st _ _; exact le_refl _
  | cons ip rest ih =>
    intro st hnd hJ
    have hipst : ip ∈ st.2 := hJ ip (List.mem_cons_self ip rest)
    have hipr : ip ∉ rest := (List.nodup_cons.mp hnd).1
    have hndr : rest.Nodup := (List.nodup_cons.mp hnd).2
    simp only [List.foldl_cons]
    have hJ2 : ∀ z ∈ rest, z ∈ (recoverStep cfg configuredIps healthyAddresses users st ip).2 := by
      intro z hz
      have hzi : z ≠ ip := fun hzeq => hipr (hzeq ▸ hz)
      have hzst : z ∈ st.2 := hJ z (List.mem_cons_of_mem ip hz)
      unfold recoverStep
      split_ifs
      · exact (mem_setErase z ip st.2).mpr ⟨hzi, hzst⟩
      · exact hzst
      · exact hzst
      · exact hzst
    have hmono : activeCount zh st.1 st.2 ≤
        activeCount zh (recoverStep cfg configuredIps healthyAddresses users st ip).1
          (recoverStep cfg configuredIps healthyAddresses users st ip).2 := by
      unfold recoverStep
      split_ifs with hic hih hiu
      · apply length_filter_mono
        intro z hz
        rw [decide_eq_true_eq] at hz
        rw [decide_eq_true_eq]
        refine ⟨(mem_setInsert z ip st.1).mpr (Or.inr hz.1), ?_⟩
        intro hm
        exact hz.2 ((mem_setErase z ip st.2).mp hm).2
      · apply length_filter_mono
        intro z hz
        rw [decide_eq_true_eq] at hz
        rw [decide_eq_true_eq]
        have hzi : z ≠ ip := by
          rintro rfl
          exact hz.2 hipst
        exact ⟨(mem_setErase z ip st.1).mpr ⟨hzi, hz.1⟩, hz.2⟩
      · exact le_refl _
      · exact le_refl _
    exact le_trans hmono (ih _ hndr hJ2)

/-- C2 counterexample: with `min_active_nodes = 2`, two healthy configured
addresses (so the claim's hypothesis holds), and one of them already
throttled with a user count inside the hysteresis band, the filter's output
keeps only one zone address — fewer than `min_active_nodes`. -/
theorem capacity_floor_claim_counterexample :
    2 ≤ (([1, 2] : List Nat).filter (fun ip => decide (ip ∈ ([1, 2] : List Nat)))).length ∧
      ¬(2 ≤ (([1, 2] : List Nat).filter (fun ip => decide (ip ∈
        (applyCapacityFiltering ⟨true, 10, 5, 2⟩ [1, 2] [1, 2]
          (fun _ => 6) [1]).1))).length) := by
  decide

/-- C2 (amended): the min-active floor protects the addresses that are
healthy and **not already throttled**: if at least `min_active_nodes` of the
zone's configured addresses are healthy and unthrottled when the filter
runs, then at least `min_active_nodes` of the zone's configured addresses
are in the returned effective set. -/
theorem capacity_floor_amended (cfg : LBConfig)
    (configuredIps healthyAddresses over0 : List α) (users : α → Nat)
    (hndc : configuredIps.Nodup) (hndo : over0.Nodup) (hen : cfg.enabled = true)
    (hfloor : cfg.minActiveNodes ≤ (configuredIps.filter
      (fun ip => decide (ip ∈ healthyAddresses ∧ ip ∉ over0))).length) :
    cfg.minActiveNodes ≤ (configuredIps.filter (fun ip => decide (ip ∈
      (applyCapacityFiltering cfg configuredIps healthyAddresses users over0).1))).length := by
  rw [applyCapacityFiltering_of_enabled cfg configuredIps healthyAddresses users over0 hen]
  have hndzh : (zoneHealthyIps configuredIps healthyAddresses).Nodup :=
    List.Nodup.filter _ hndc
  have hstart : cfg.minActiveNodes ≤
      activeCount (zoneHealthyIps configuredIps healthyAddresses) healthyAddresses over0 := by
    unfold activeCount zoneHealthyIps
    rw [List.filter_filter]
    refine le_trans hfloor (le_of_eq ?_)
    congr 1
    apply List.filter_congr
    intro z _
    by_cases h1 : z ∈ healthyAddresses <;> by_cases h2 : z ∈ over0 <;> simp [h1, h2]
  have hphase1 := throttleFold_active_floor cfg
    (zoneHealthyIps configuredIps healthyAddresses) users hndzh
    (zoneHealthyIps configuredIps healthyAddresses) (healthyAddresses, over0) hstart
  have hndT : (throttlePhase cfg configuredIps healthyAddresses users over0).2.Nodup :=
    throttleFold_over_nodup cfg (zoneHealthyIps configuredIps healthyAddresses) users
      (zoneHealthyIps configuredIps healthyAddresses) (healthyAddresses, over0) hndo
  have hphase2 := recoverFold_active_floor cfg configuredIps healthyAddresses users
    (zoneHealthyIps configuredIps healthyAddresses)
    (throttlePhase cfg configuredIps healthyAddresses users over0).2
    (throttlePhase cfg configuredIps healthyAddresses users over0) hndT (fun z hz => hz)
  refine le_trans (le_trans hphase1 hphase2) ?_
  unfold activeCount zoneHealthyIps
  rw [List.filter_filter]
  apply length_filter_mono
  intro z hz
  rw [Bool.and_eq_true, decide_eq_true_eq, decide_eq_true_eq] at hz
  rw [decide_eq_true_eq]
  exact hz.1.1

/-- Witness for the amended C2 at concrete inputs. -/
theorem capacity_floor_amended_witness :
    ([1, 2] : List Nat).Nodup ∧ ([] : List Nat).Nodup ∧
      (1 ≤ (([1, 2] : List Nat).filter (fun ip => decide (ip ∈ ([1, 2] : List Nat) ∧
        ip ∉ ([] : List Nat)))).length) ∧
      (1 ≤ (([1, 2] : List Nat).filter (fun ip => decide (ip ∈
        (applyCapacityFiltering ⟨true, 10, 5, 1⟩ [1, 2] [1, 2]
          (fun _ => 100) []).1))).length) :=
  ⟨by decide, by decide, by decide,
    capacity_floor_amended ⟨true, 10, 5, 1⟩ [1, 2] [1, 2] [] (fun _ => 100)
      (by decide) (by decide) rfl (by decide)⟩

omit [DecidableEq α] in
theorem mkRecords_map_content (l : List α) :
    ∀ freshId : Nat, (mkRecords freshId l).map DNSRecord.content = l := by
  induction l with
  | nil => intro f; rfl
  | cons ip rest ih =>
    intro f
    simp only [mkRecords, List.map_cons, ih]

theorem lastRecordFor_eq_none_iff (ip : α) :
    ∀ l : List (DNSRecord α),
      lastRecordFor l ip = none ↔ ip ∉ l.map DNSRecord.content := by
  intro l
  induction l with
  | nil => simp [lastRecordFor]
  | cons r rest ih =>
    simp only [lastRecordFor, List.map_cons, List.mem_cons]
    cases h : lastRecordFor rest ip with
    | some q =>
      have : ip ∈ rest.map DNSRecord.content := by
        by_contra hc
        rw [← ih] at hc
        rw [h] at hc
        cases hc
      simp [this]
    | none =>
      rw [h] at ih
      have hr : ip ∉ rest.map DNSRecord.content := ih.mp rfl
      by_cases hcr : r.content = ip
      · rw [if_pos hcr]
        constructor
        · intro hcontra; cases hcontra
        · intro hcontra; exact absurd (Or.inl hcr.symm) hcontra
      · rw [if_neg hcr]
        constructor
        · intro _
          rintro (h1 | h2)
          · exact hcr h1.symm
          · exact hr h2
        · intro _; rfl

theorem lastRecordFor_mem (ip : α) :
    ∀ (l : List (DNSRecord α)) (r : DNSRecord α),
      lastRecordFor l ip = some r → r ∈ l ∧ r.content = ip := by
  intro l
  induction l with
  | nil => intro r h; cases h
  | cons x rest ih =>
    intro r h
    simp only [lastRecordFor] at h
    cases hrest : lastRecordFor rest ip with
    | some q =>
      rw [hrest] at h
      cases h
      have := ih _ hrest
      exact ⟨List.mem_cons_of_mem x this.1, this.2⟩
    | none =>
      rw [hrest] at h
      by_cases hcr : x.content = ip
      · rw [if_pos hcr] at h
        cases h
        exact ⟨List.mem_cons_self x rest, hcr⟩
      · rw [if_neg hcr] at h
        cases h

theorem lastRecordFor_of_nodup :
    ∀ l : List (DNSRecord α), (l.map DNSRecord.content).Nodup →
      ∀ r ∈ l, lastRecordFor l r.content = some r := by
  intro l
  induction l with
  | nil => intro _ r hr; cases hr
  | cons x rest ih =>
    intro hnd r hr
    rw [List.map_cons, List.nodup_cons] at hnd
    rcases List.mem_cons.mp hr with rfl | hrest
    · have hnone : lastRecordFor rest r.content = none :=
        (lastRecordFor_eq_none_iff r.content rest).mpr hnd.1
      simp [lastRecordFor, hnone]
    · have hsome := ih hnd.2 r hrest
      simp [lastRecordFor, hsome]

theorem mem_removeIdsUnhealthy_iff (configuredIps healthyIps : List α)
    (existing : List (DNSRecord α)) (r : DNSRecord α)
    (hc : (existing.map DNSRecord.content).Nodup)
    (hid : (existing.map DNSRecord.id).Nodup) (hr : r ∈ existing) :
    r.id ∈ removeIdsUnhealthy configuredIps healthyIps existing ↔
      (r.content ∈ configuredIps ∧ r.content ∉ healthyIps) := by
  unfold removeIdsUnhealthy
  rw [List.mem_filterMap]
  constructor
  · rintro ⟨ip, hipmem, hmap⟩
    rcases Option.map_eq_some'.mp hmap with ⟨q, hq, hqid⟩
    have hqmem := lastRecordFor_mem ip existing q hq
    have hqr : q = r := List.inj_on_of_nodup_map hid hqmem.1 hr hqid
    subst hqr
    rw [List.mem_filter, List.mem_dedup] at hipmem
    rw [decide_eq_true_eq] at hipmem
    rw [hqmem.2]
    exact ⟨hipmem.1, hipmem.2⟩
  · rintro ⟨hcf, hnh⟩
    refine ⟨r.content, ?_, ?_⟩
    · rw [List.mem_filter, List.mem_dedup]
      exact ⟨hcf, by rw [decide_eq_true_eq]; exact hnh⟩
    · rw [lastRecordFor_of_nodup existing hc r hr]
      rfl

theorem mem_removeIdsStray_iff (configuredIps : List α)
    (existing : List (DNSRecord α)) (r : DNSRecord α)
    (hc : (existing.map DNSRecord.content).Nodup)
    (hid : (existing.map DNSRecord.id).Nodup) (hr : r ∈ existing) :
    r.id ∈ removeIdsStray configuredIps existing ↔ r.content ∉ configuredIps := by
  unfold removeIdsStray
  rw [List.mem_filterMap]
  constructor
  · rintro ⟨ip, hipmem, hmap⟩
    rcases Option.map_eq_some'.mp hmap with ⟨q, hq, hqid⟩
    have hqmem := lastRecordFor_mem ip existing q hq
    have hqr : q = r := List.inj_on_of_nodup_map hid hqmem.1 hr hqid
    subst hqr
    rw [List.mem_filter, List.mem_dedup] at hipmem
    rw [decide_eq_true_eq] at hipmem
    rw [hqmem.2]
    exact hipmem.2
  · intro hnc
    refine ⟨r.content, ?_, ?_⟩
    · rw [List.mem_filter, List.mem_dedup]
      exact ⟨List.mem_map_of_mem DNSRecord.content hr,
        by rw [decide_eq_true_eq]; exact hnc⟩
    · rw [lastRecordFor_of_nodup existing hc r hr]
      rfl

/-- Content characterisation of one error-free `sync_dns_records` run:
the resulting record contents are exactly `configured_ips ∩ healthy_ips`
(the zone's configured addresses that are in the effective set). -/
theorem sync_mem_content (configuredIps healthyIps : List α)
    (existing : List (DNSRecord α)) (freshId : Nat)
    (hc : (existing.map DNSRecord.content).Nodup)
    (hid : (existing.map DNSRecord.id).Nodup) (c : α) :
    c ∈ (syncDnsRecords configuredIps healthyIps existing freshId).records.map
        DNSRecord.content ↔
      (c ∈ configuredIps ∧ c ∈ healthyIps) := by
  unfold syncDnsRecords
  simp only [List.map_append, List.mem_append, mkRecords_map_content]
  constructor
  · rintro (hkeep | hadd)
    · rcases List.mem_map.mp hkeep with ⟨r, hrmem, rfl⟩
      rw [List.mem_filter] at hrmem
      rcases hrmem with ⟨hrex, hpred⟩
      rw [decide_eq_true_eq] at hpred
      push_neg at hpred
      have h1 := hpred.1
      have h2 := hpred.2
      rw [mem_removeIdsUnhealthy_iff configuredIps healthyIps existing r hc hid hrex] at h1
      rw [mem_removeIdsStray_iff configuredIps existing r hc hid hrex] at h2
      push_neg at h2
      push_neg at h1
      exact ⟨h2, h1 h2⟩
    · unfold toAddIps at hadd
      rw [List.mem_filter, List.mem_dedup, List.mem_filter] at hadd
      rw [decide_eq_true_eq] at hadd
      exact ⟨hadd.1.1, hadd.1.2⟩
  · rintro ⟨hcf, hh⟩
    by_cases hex : c ∈ existing.map DNSRecord.content
    · left
      rcases List.mem_map.mp hex with ⟨r, hrmem, rfl⟩
      refine List.mem_map.mpr ⟨r, ?_, rfl⟩
      rw [List.mem_filter]
      refine ⟨hrmem, ?_⟩
      rw [decide_eq_true_eq]
      rintro (h1 | h2)
      · rw [mem_removeIdsUnhealthy_iff configuredIps healthyIps existing r hc hid hrmem] at h1
        exact h1.2 hh
      · rw [mem_removeIdsStray_iff configuredIps existing r hc hid hrmem] at h2
        exact h2 hcf
    · right
      unfold toAddIps
      rw [List.mem_filter, List.mem_dedup, List.mem_filter]
      exact ⟨⟨hcf, by rw [decide_eq_true_eq]; exact hh⟩,
        by rw [decide_eq_true_eq]; exact hex⟩

/-- C1 counterexample: an effective address outside `configured_ips` never
gets a record created — with `configured_ips = [1]`,
`effective = healthy_ips = [1, 2]` and no pre-existing records, the run
leaves no record with content `2`, so the provider's content set is not
`effective_addresses`. -/
theorem sync_effective_outside_configured_not_created :
    (2 : Nat) ∈ ([1, 2] : List Nat) ∧
      (2 : Nat) ∉ (syncDnsRecords [1] [1, 2] ([] : List (DNSRecord Nat)) 0).records.map
        DNSRecord.content := by
  decide

/-- C1 (amended): after an error-free `sync_dns_records` run against
pre-existing records with pairwise distinct contents and ids, the
provider's A-record content set for the zone equals
`configured_ips ∩ effective_addresses` exactly; in particular every address
of `configured_ips ∩ effective_addresses` without an existing record gets a
record created, and effective addresses outside `configured_ips` get none. -/
theorem sync_converges_to_configured_inter_effective
    (configuredIps healthyIps : List α) (existing : List (DNSRecord α)) (freshId : Nat)
    (hc : (existing.map DNSRecord.content).Nodup)
    (hid : (existing.map DNSRecord.id).Nodup) :
    ∀ c, c ∈ (syncDnsRecords configuredIps healthyIps existing freshId).records.map
        DNSRecord.content ↔
      (c ∈ configuredIps ∧ c ∈ healthyIps) :=
  fun c => sync_mem_content configuredIps healthyIps existing freshId hc hid c

/-- Witness for the amended C1 at concrete inputs. -/
theorem sync_converges_to_configured_inter_effective_witness :
    (([⟨0, 3⟩, ⟨1, 7⟩] : List (DNSRecord Nat)).map DNSRecord.content).Nodup ∧
      (([⟨0, 3⟩, ⟨1, 7⟩] : List (DNSRecord Nat)).map DNSRecord.id).Nodup ∧
      ((1 : Nat) ∈ (syncDnsRecords [1, 3] [1, 3, 9]
          ([⟨0, 3⟩, ⟨1, 7⟩] : List (DNSRecord Nat)) 5).records.map DNSRecord.content ↔
        ((1 : Nat) ∈ ([1, 3] : List Nat) ∧ (1 : Nat) ∈ ([1, 3, 9] : List Nat))) :=
  ⟨by decide, by decide,
    sync_converges_to_configured_inter_effective [1, 3] [1, 3, 9]
      [⟨0, 3⟩, ⟨1, 7⟩] 5 (by decide) (by decide) 1⟩

/-- C6 counterexample: with two pre-existing records sharing the same stray
content, the first run deletes only the one the `existing_by_ip` dict kept
(the later one), so the second run still issues a delete call — running the
reconciler twice is not quiescent on the second run. -/
theorem sync_idempotent_claim_counterexample :
    (syncDnsRecords [1] [1]
        ((syncDnsRecords [1] [1] ([⟨0, 5⟩, ⟨1, 5⟩] : List (DNSRecord Nat)) 2).records)
        ((syncDnsRecords [1] [1] ([⟨0, 5⟩, ⟨1, 5⟩] : List (DNSRecord Nat)) 2).nextId)).addedCount = 0 ∧
      (syncDnsRecords [1] [1]
        ((syncDnsRecords [1] [1] ([⟨0, 5⟩, ⟨1, 5⟩] : List (DNSRecord Nat)) 2).records)
        ((syncDnsRecords [1] [1] ([⟨0, 5⟩, ⟨1, 5⟩] : List (DNSRecord Nat)) 2).nextId)).removedCount = 1 := by
  decide

/-- C6 (amended): if the pre-existing records have pairwise distinct
contents and ids (one record per address, the provider's normal state),
then an error-free run followed by a second run with the same
`configured_ips` and the same effective set — the second run listing the
first run's writes — issues zero create calls and zero delete calls. -/
theorem sync_idempotent (configuredIps healthyIps : List α)
    (existing : List (DNSRecord α)) (freshId : Nat)
    (hc : (existing.map DNSRecord.content).Nodup)
    (hid : (existing.map DNSRecord.id).Nodup) :
    (syncDnsRecords configuredIps healthyIps
        (syncDnsRecords configuredIps healthyIps existing freshId).records
        (syncDnsRecords configuredIps healthyIps existing freshId).nextId).addedCount = 0 ∧
      (syncDnsRecords configuredIps healthyIps
        (syncDnsRecords configuredIps healthyIps existing freshId).records
        (syncDnsRecords configuredIps healthyIps existing freshId).nextId).removedCount = 0 := by
  have hcontents := sync_mem_content configuredIps healthyIps existing freshId hc hid
  constructor
  · show (toAddIps configuredIps healthyIps
      (syncDnsRecords configuredIps healthyIps existing freshId).records).length = 0
    rw [List.length_eq_zero]
    unfold toAddIps
    rw [List.filter_eq_nil_iff]
    intro a ha
    rw [List.mem_dedup, List.mem_filter, decide_eq_true_eq] at ha
    rw [decide_eq_true_eq]
    push_neg
    exact (hcontents a).mpr ⟨ha.1, ha.2⟩
  · show (removeIdsUnhealthy configuredIps healthyIps
        (syncDnsRecords configuredIps healthyIps existing freshId).records ++
      removeIdsStray configuredIps
        (syncDnsRecords configuredIps healthyIps existing freshId).records).length = 0
    rw [List.length_eq_zero, List.append_eq_nil]
    constructor
    · unfold removeIdsUnhealthy
      rw [List.filterMap_eq_nil_iff]
      intro a ha
      rw [List.mem_filter, List.mem_dedup, decide_eq_true_eq] at ha
      have hnone : lastRecordFor
          (syncDnsRecords configuredIps healthyIps existing freshId).records a = none := by
        rw [lastRecordFor_eq_none_iff]
        intro hmem
        exact ha.2 ((hcontents a).mp hmem).2
      rw [hnone]
      rfl
    · unfold removeIdsStray
      have hnil : ((syncDnsRecords configuredIps healthyIps existing
          freshId).records.map DNSRecord.content).dedup.filter
          (fun ip => decide (ip ∉ configuredIps)) = [] := by
        rw [List.filter_eq_nil_iff]
        intro a ha
        rw [List.mem_dedup] at ha
        rw [decide_eq_true_eq]
        push_neg
        exact ((hcontents a).mp ha).1
      rw [hnil]
      rfl

/-- Witness for the amended C6 at concrete inputs. -/
theorem sync_idempotent_witness :
    (([⟨0, 3⟩, ⟨1, 7⟩] : List (DNSRecord Nat)).map DNSRecord.content).Nodup ∧
      (([⟨0, 3⟩, ⟨1, 7⟩] : List (DNSRecord Nat)).map DNSRecord.id).Nodup ∧
      ((syncDnsRecords [1, 3] [1, 3]
          ((syncDnsRecords [1, 3] [1, 3] ([⟨0, 3⟩, ⟨1, 7⟩] : List (DNSRecord Nat)) 5).records)
          ((syncDnsRecords [1, 3] [1, 3] ([⟨0, 3⟩, ⟨1, 7⟩] : List (DNSRecord Nat)) 5).nextId)).addedCount = 0 ∧
        (syncDnsRecords [1, 3] [1, 3]
          ((syncDnsRecords [1, 3] [1, 3] ([⟨0, 3⟩, ⟨1, 7⟩] : List (DNSRecord Nat)) 5).records)
          ((syncDnsRecords [1, 3] [1, 3] ([⟨0, 3⟩, ⟨1, 7⟩] : List (DNSRecord Nat)) 5).nextId)).removedCount = 0) :=
  ⟨by decide, by decide,
    sync_idempotent [1, 3] [1, 3] [⟨0, 3⟩, ⟨1, 7⟩] 5 (by decide) (by decide)⟩

/-- C7 counterexample: with a single always-unhealthy node and a middle
cycle observing zero nodes, the critical alert fires on the first and third
cycles although no node was ever observed healthy — the empty observation
alone re-armed it, contradicting "re-armed only after at least one node
becomes healthy again". -/
theorem critical_rearm_claim_counterexample :
    runCriticalCycles
        ([[⟨0, false, false, false, 0⟩], [], [⟨0, false, false, false, 0⟩]] :
          List (List (NodeStatus Nat))) false = [true, false, true] ∧
      (([[⟨0, false, false, false, 0⟩], [], [⟨0, false, false, false, 0⟩]] :
          List (List (NodeStatus Nat))).all
        (fun c => c.all (fun n => !n.isHealthy))) = true := by
  decide

omit [DecidableEq α] in
/-- C7 (amended): over any sequence of cycles the critical alert is emitted
exactly on cycles that are all-down (at least one configured node observed,
all observed unhealthy) and whose predecessor cycle was not all-down (the
initial flag standing in for cycle −1); consecutive all-down cycles are
suppressed, and any non-all-down cycle — one with a healthy node, or one
observing zero nodes — re-arms the alert. -/
theorem critical_fires_iff_entering_all_down
    (cycles : List (List (NodeStatus α))) (prev : Bool) :
    ∀ i, i < cycles.length →
      (runCriticalCycles cycles prev).getD i false =
        (allDownFlag (cycles.getD i []) &&
          !(if i = 0 then prev else allDownFlag (cycles.getD (i - 1) []))) := by
  induction cycles generalizing prev with
  | nil =>
    intro i hi
    exact absurd hi (Nat.not_lt_zero i)
  | cons c rest ih =>
    intro i hi
    cases i with
    | zero => simp [runCriticalCycles, checkCriticalState]
    | succ j =>
      have hj : j < rest.length := by
        simpa [Nat.succ_lt_succ_iff] using hi
      have hrec := ih (checkCriticalState c prev).2 j hj
      simp only [runCriticalCycles, List.getD_cons_succ]
      rw [hrec]
      cases j with
      | zero => simp [checkCriticalState]
      | succ k => simp

/-- Witness for the amended C7 at concrete inputs. -/
theorem critical_fires_iff_entering_all_down_witness :
    (1 < ([[⟨0, false, false, false, 0⟩], [⟨0, false, false, false, 0⟩]] :
        List (List (NodeStatus Nat))).length) ∧
      ((runCriticalCycles
          ([[⟨0, false, false, false, 0⟩], [⟨0, false, false, false, 0⟩]] :
            List (List (NodeStatus Nat))) false).getD 1 false =
        (allDownFlag (([[⟨0, false, false, false, 0⟩], [⟨0, false, false, false, 0⟩]] :
            List (List (NodeStatus Nat))).getD 1 []) &&
          !(if 1 = 0 then false else allDownFlag
            (([[⟨0, false, false, false, 0⟩], [⟨0, false, false, false, 0⟩]] :
              List (List (NodeStatus Nat))).getD 0 [])))) :=
  ⟨by decide,
    critical_fires_iff_entering_all_down
      [[⟨0, false, false, false, 0⟩], [⟨0, false, false, false, 0⟩]] false 1 (by decide)⟩

omit [DecidableEq α] in
/-- C10: a cycle observing zero configured nodes never emits the critical
alert and clears `_previous_all_down`, so a later all-down observation
fires again even though no node became healthy in between. -/
theorem critical_empty_observation_rearms (prev : Bool)
    (nodes : List (NodeStatus α)) (hne : 0 < nodes.length)
    (hdown : ∀ n ∈ nodes, n.isHealthy = false) :
    checkCriticalState ([] : List (NodeStatus α)) prev = (false, false) ∧
      (checkCriticalState nodes
        (checkCriticalState ([] : List (NodeStatus α)) prev).2).1 = true := by
  have hfilter : nodes.filter (fun n => !n.isHealthy) = nodes :=
    List.filter_eq_self.mpr (fun a ha => by rw [hdown a ha]; rfl)
  constructor
  · simp [checkCriticalState, allDownFlag]
  · simp [checkCriticalState, allDownFlag, hfilter, hne]

/-- Witness for C10 at concrete inputs. -/
theorem critical_empty_observation_rearms_witness :
    (0 < ([⟨0, false, false, false, 0⟩] : List (NodeStatus Nat)).length) ∧
      (checkCriticalState ([] : List (NodeStatus Nat)) true = (false, false) ∧
        (checkCriticalState ([⟨0, false, false, false, 0⟩] : List (NodeStatus Nat))
          (checkCriticalState ([] : List (NodeStatus Nat)) true).2).1 = true) :=
  ⟨by decide,
    critical_empty_observation_rearms true [⟨0, false, false, false, 0⟩]
      (by decide) (by decide)⟩

theorem transitionStep_eq_none (st : (α → Option Bool) × List (NodeStateChange α))
    (n : NodeStatus α) (h : st.1 n.address = none) :
    transitionStep st n =
      (fun b => if b = n.address then some n.isHealthy else st.1 b, st.2) := by
  unfold transitionStep
  rw [h]

theorem transitionStep_eq_same (st : (α → Option Bool) × List (NodeStateChange α))
    (n : NodeStatus α) (p : Bool) (h : st.1 n.address = some p)
    (hp : p = n.isHealthy) :
    transitionStep st n =
      (fun b => if b = n.address then some n.isHealthy else st.1 b, st.2) := by
  unfold transitionStep
  rw [h]
  simp only [if_pos hp]

theorem transitionStep_eq_diff (st : (α → Option Bool) × List (NodeStateChange α))
    (n : NodeStatus α) (p : Bool) (h : st.1 n.address = some p)
    (hp : ¬p = n.isHealthy) :
    transitionStep st n =
      (fun b => if b = n.address then some n.isHealthy else st.1 b,
        st.2 ++ [⟨n.address, p, n.isHealthy⟩]) := by
  unfold transitionStep
  rw [h]
  simp only [if_neg hp]

theorem transitionFold_no_address (a : α) :
    ∀ (nodes : List (NodeStatus α))
      (st : (α → Option Bool) × List (NodeStateChange α)),
      (∀ n ∈ nodes, n.address ≠ a) →
      ((nodes.foldl transitionStep st).1 a = st.1 a ∧
        ((nodes.foldl transitionStep st).2.filter
            (fun t => decide (t.address = a))).length =
          (st.2.filter (fun t => decide (t.address = a))).length) := by
  intro nodes
  induction nodes with
  | nil => intro st _; exact ⟨rfl, rfl⟩
  | cons n rest ih =>
    intro st hna
    have hn : n.address ≠ a := hna n (List.mem_cons_self n rest)
    have hne : ¬a = n.address := fun h => hn h.symm
    have hstep : (transitionStep st n).1 a = st.1 a ∧
        ((transitionStep st n).2.filter (fun t => decide (t.address = a))).length =
          (st.2.filter (fun t => decide (t.address = a))).length := by
      cases hm : st.1 n.address with
      | none =>
        rw [transitionStep_eq_none st n hm]
        exact ⟨by simp only [if_neg hne], rfl⟩
      | some p =>
        by_cases hp : p = n.isHealthy
        · rw [transitionStep_eq_same st n p hm hp]
          exact ⟨by simp only [if_neg hne], rfl⟩
        · rw [transitionStep_eq_diff st n p hm hp]
          refine ⟨by simp only [if_neg hne], ?_⟩
          rw [List.filter_append, List.length_append]
          simp [hn]
    have hrest := ih (transitionStep st n)
      (fun m hm => hna m (List.mem_cons_of_mem n hm))
    rw [List.foldl_cons]
    exact ⟨hrest.1.trans hstep.1, hrest.2.trans hstep.2⟩

theorem transitionFold_single_address (a : α) (m : NodeStatus α) :
    ∀ (nodes : List (NodeStatus α))
      (st : (α → Option Bool) × List (NodeStateChange α)),
      nodes.filter (fun x => decide (x.address = a)) = [m] →
      ((nodes.foldl transitionStep st).1 a = some m.isHealthy ∧
        ((nodes.foldl transitionStep st).2.filter
            (fun t => decide (t.address = a))).length =
          (st.2.filter (fun t => decide (t.address = a))).length +
            (match st.1 a with
             | none => 0
             | some p => if p = m.isHealthy then 0 else 1)) := by
  intro nodes
  induction nodes with
  | nil => intro st h; cases h
  | cons n rest ih =>
    intro st hone
    rw [List.filter_cons] at hone
    by_cases hna : n.address = a
    · rw [if_pos (by rw [decide_eq_true_eq]; exact hna)] at hone
      have hm : n = m := (List.cons_eq_cons.mp hone).1
      have hrestnil : rest.filter (fun x => decide (x.address = a)) = [] :=
        (List.cons_eq_cons.mp hone).2
      have hrestna : ∀ x ∈ rest, x.address ≠ a := by
        intro x hx hxa
        have := List.filter_eq_nil_iff.mp hrestnil x hx
        rw [decide_eq_true_eq] at this
        exact this hxa
      subst hm
      rw [List.foldl_cons]
      have hrest := transitionFold_no_address a rest (transitionStep st n) hrestna
      refine ⟨hrest.1.trans ?_, hrest.2.trans ?_⟩
      · cases hp : st.1 n.address with
        | none =>
          rw [transitionStep_eq_none st n hp]
          simp only [if_pos hna.symm]
        | some p =>
          by_cases heq : p = n.isHealthy
          · rw [transitionStep_eq_same st n p hp heq]
            simp only [if_pos hna.symm]
          · rw [transitionStep_eq_diff st n p hp heq]
            simp only [if_pos hna.symm]
      · cases hp : st.1 n.address with
        | none =>
          rw [transitionStep_eq_none st n hp]
          rw [hna] at hp
          rw [hp]
          rfl
        | some p =>
          rw [hna] at hp
          by_cases heq : p = n.isHealthy
          · rw [transitionStep_eq_same st n p (hna.symm ▸ hp) heq]
            simp [hp, heq]
          · rw [transitionStep_eq_diff st n p (hna.symm ▸ hp) heq]
            rw [List.filter_append, List.length_append]
            simp [hp, heq, hna]
    · rw [if_neg (by rw [decide_eq_true_eq]; exact hna)] at hone
      rw [List.foldl_cons]
      have hne : ¬a = n.address := fun h => hna h.symm
      have hstep1 : (transitionStep st n).1 a = st.1 a := by
        cases hm : st.1 n.address with
        | none =>
          rw [transitionStep_eq_none st n hm]
          simp only [if_neg hne]
        | some p =>
          by_cases heq : p = n.isHealthy
          · rw [transitionStep_eq_same st n p hm heq]
            simp only [if_neg hne]
          · rw [transitionStep_eq_diff st n p hm heq]
            simp only [if_neg hne]
      have hstep2 : ((transitionStep st n).2.filter
          (fun t => decide (t.address = a))).length =
            (st.2.filter (fun t => decide (t.address = a))).length := by
        cases hm : st.1 n.address with
        | none => rw [transitionStep_eq_none st n hm]
        | some p =>
          by_cases heq : p = n.isHealthy
          · rw [transitionStep_eq_same st n p hm heq]
          · rw [transitionStep_eq_diff st n p hm heq]
            rw [List.filter_append, List.length_append]
            simp [hna]
      have hrest := ih (transitionStep st n) hone
      rw [hrest.2, hstep1, hstep2]
      exact ⟨hrest.1, rfl⟩

/-- C8: Transition suppression.  With the notifier present and node-change
notifications enabled, for an address observed exactly once in the cycle:
its first-ever observation emits no node-state-change notification, a cycle
whose health differs from the recorded value emits exactly one, and a cycle
whose health equals the recorded value emits none; the recorded value
becomes the observed health in every case. -/
theorem node_transition_suppression (enabled : Bool) (nodes : List (NodeStatus α))
    (prev : α → Option Bool) (a : α) (m : NodeStatus α)
    (hen : enabled = true)
    (hone : nodes.filter (fun x => decide (x.address = a)) = [m]) :
    ((checkNodeTransitions enabled nodes prev).1 a = some m.isHealthy) ∧
      (((checkNodeTransitions enabled nodes prev).2.filter
          (fun t => decide (t.address = a))).length =
        (match prev a with
         | none => 0
         | some p => if p = m.isHealthy then 0 else 1)) := by
  subst hen
  unfold checkNodeTransitions
  rw [if_pos rfl]
  have h := transitionFold_single_address a m nodes (prev, []) hone
  refine ⟨h.1, ?_⟩
  rw [h.2]
  exact Nat.zero_add _

/-- Witness for C8 at concrete inputs. -/
theorem node_transition_suppression_witness :
    (([⟨1, true, false, true, 0⟩] : List (NodeStatus Nat)).filter
        (fun x => decide (x.address = 1)) = [⟨1, true, false, true, 0⟩]) ∧
      (((checkNodeTransitions true [⟨1, true, false, true, 0⟩]
          (fun x => if x = 1 then some false else none)).1 1 =
        some (⟨1, true, false, true, 0⟩ : NodeStatus Nat).isHealthy) ∧
        (((checkNodeTransitions true [⟨1, true, false, true, 0⟩]
            (fun x => if x = 1 then some false else none)).2.filter
            (fun t => decide (t.address = 1))).length =
          (match (fun x : Nat => if x = 1 then some false else none) 1 with
           | none => 0
           | some p => if p = (⟨1, true, false, true, 0⟩ : NodeStatus Nat).isHealthy
              then 0 else 1))) :=
  ⟨by decide,
    node_transition_suppression true [⟨1, true, false, true, 0⟩]
      (fun x => if x = 1 then some false else none) 1 ⟨1, true, false, true, 0⟩
      rfl (by decide)⟩

end NodeManager
